import Mathlib

/-!
Verification of the cross-runtime object handle arena of this repository.

The C++ sources (`firestore/src/android/object_arena_android.cc` and
`object_arena_android.h`) are JNI bindings that forward every operation to the
Java class `com.google.firebase.firestore.internal.cpp.ObjectArena`
(constructor `()V`, `add(Object)J`, `remove(J)V`, `get(J)Ljava/lang/Object;`,
`dup(J)J`, `size()I`).  The Java implementation itself is not among the C++
sources, so the arena's behaviour is modelled here from the specification
(spec sections 3, 4 and 7): a mapping from int64 keys to shared
reference-counted entries, a monotonic key generator that never yields the
reserved key 0, and the two error kinds `InvalidArgument` and `InvalidKey`
with their exact message strings.
-/

/-- Error kinds surfaced by the arena (spec section 7): `invalidArgument` is
raised by Insert on a null object; `invalidKey` is raised on a zero or
non-live key. -/
inductive ArenaError where
  | invalidArgument (msg : String)
  | invalidKey (msg : String)
  deriving Repr, DecidableEq

/-- One live entry (spec section 3): the stored value together with a
reference count that Duplicate increments and Remove decrements. -/
structure Entry (α : Type) where
  value : α
  refCount : Nat
  deriving Repr, DecidableEq

/-- Association-list lookup keyed by decidable equality; returns the value of
the first pair whose key matches. -/
def alookup {κ β : Type} [DecidableEq κ] (k : κ) : List (κ × β) → Option β
  | [] => none
  | p :: rest => if k = p.1 then some p.2 else alookup k rest

/-- Modelled from the spec: the state of the Java class
`com.google.firebase.firestore.internal.cpp.ObjectArena`, whose implementation
is missing from the C++ sources (only the JNI binding in
`object_arena_android.cc` is present).  `keys` maps each live int64 key to a
slot id; `slots` maps slot ids to shared reference-counted entries, so that
Duplicate can alias one entry under several keys (spec section 3);
`nextKey` is the monotonic key generator, which starts past the reserved
key 0; `nextSlot` generates slot ids. -/
structure Arena (α : Type) where
  slots : List (Nat × Entry α)
  keys : List (Int × Nat)
  nextKey : Int
  nextSlot : Nat
  deriving Repr, DecidableEq

/-- Modelled from the spec: `Create()` returns a new, empty arena
(spec section 4.1); the key generator starts at 1, past the reserved key 0. -/
def Arena.create {α : Type} : Arena α := ⟨[], [], 1, 0⟩

/-- The exact user-visible message for an invalid key, with the key rendered
in decimal (spec section 6). -/
def invalidKeyMsg (k : Int) : String := "key is not assigned: " ++ toString k

/-- Modelled from the spec: `Insert` (Java `add`).  A null object fails with
`InvalidArgument` and message `"obj==null"`, leaving the arena unchanged;
otherwise a fresh entry with reference count 1 is stored under the next
generated key, which is returned (spec section 4.1). -/
def Arena.insert {α : Type} (a : Arena α) (obj : Option α) :
    Except ArenaError Int × Arena α :=
  match obj with
  | none => (Except.error (ArenaError.invalidArgument "obj==null"), a)
  | some v =>
      (Except.ok a.nextKey,
        { slots := (a.nextSlot, ⟨v, 1⟩) :: a.slots
          keys := (a.nextKey, a.nextSlot) :: a.keys
          nextKey := a.nextKey + 1
          nextSlot := a.nextSlot + 1 })

/-- Modelled from the spec: `Get` (Java `get`).  A key that does not match any
live entry fails with `InvalidKey` and the exact message
`"key is not assigned: <key>"`; otherwise the stored value is returned and the
arena state is returned unchanged (spec section 4.1). -/
def Arena.get {α : Type} (a : Arena α) (k : Int) :
    Except ArenaError α × Arena α :=
  match alookup k a.keys with
  | none => (Except.error (ArenaError.invalidKey (invalidKeyMsg k)), a)
  | some s =>
      match alookup s a.slots with
      | none => (Except.error (ArenaError.invalidKey (invalidKeyMsg k)), a)
      | some e => (Except.ok e.value, a)

/-- Replace the entry stored under slot id `s`. -/
def setSlot {α : Type} (slots : List (Nat × Entry α)) (s : Nat) (e : Entry α) :
    List (Nat × Entry α) :=
  slots.map (fun q => if q.1 = s then (s, e) else q)

/-- Modelled from the spec: `Duplicate` (Java `dup`).  On a live key it
increments the entry's reference count and allocates a fresh key mapping to
the same entry; on a dead key it fails exactly as `Get` does
(spec section 4.1). -/
def Arena.dup {α : Type} (a : Arena α) (k : Int) :
    Except ArenaError Int × Arena α :=
  match alookup k a.keys with
  | none => (Except.error (ArenaError.invalidKey (invalidKeyMsg k)), a)
  | some s =>
      match alookup s a.slots with
      | none => (Except.error (ArenaError.invalidKey (invalidKeyMsg k)), a)
      | some e =>
          (Except.ok a.nextKey,
            { slots := setSlot a.slots s ⟨e.value, e.refCount + 1⟩
              keys := (a.nextKey, s) :: a.keys
              nextKey := a.nextKey + 1
              nextSlot := a.nextSlot })

/-- Modelled from the spec: `Remove` (Java `remove`).  On a live key it
decrements the entry's reference count; when the count reaches zero the entry
is destroyed and every key aliasing it is erased (spec sections 3 and 4.1).
On a dead key it is a no-op (the spec leaves no-op versus error open,
section 9). -/
def Arena.remove {α : Type} (a : Arena α) (k : Int) : Arena α :=
  match alookup k a.keys with
  | none => a
  | some s =>
      match alookup s a.slots with
      | none => a
      | some e =>
          if e.refCount ≤ 1 then
            { a with
              slots := a.slots.filter (fun q => q.1 ≠ s)
              keys := a.keys.filter (fun p => p.2 ≠ s) }
          else
            { a with slots := setSlot a.slots s ⟨e.value, e.refCount - 1⟩ }

/-- Modelled from the spec: `Size` (Java `size`) counts the currently-live
keys (spec section 4.1). -/
def Arena.size {α : Type} (a : Arena α) : Nat := a.keys.length

/-- Two's-complement truncation of an integer to the 32-bit signed range,
as performed by returning a count through the JNI `jint` type. -/
def toInt32 (n : Int) : Int := (n + 2 ^ 31) % 2 ^ 32 - 2 ^ 31

/-- The size as observed through the C++ binding, whose `Size` returns
`int32_t` (JNI signature `()I`, `object_arena_android.h` line 43). -/
def Arena.sizeJint {α : Type} (a : Arena α) : Int := toInt32 (a.size : Int)

/-- Insert a list of (non-null) objects in order; returns the final arena and
the list of keys handed out, in call order. -/
def Arena.insertAll {α : Type} (a : Arena α) : List α → Arena α × List Int
  | [] => (a, [])
  | v :: vs =>
      let rest := ((a.insert (some v)).2).insertAll vs
      (rest.1, a.nextKey :: rest.2)

/-- Remove a list of keys in order. -/
def Arena.removeAll {α : Type} (a : Arena α) : List Int → Arena α
  | [] => a
  | k :: ks => (a.remove k).removeAll ks

/-- The keys `start, start+1, ..., start+n-1`, the shape of what a run of `n`
successful Inserts hands out. -/
def keyRange (start : Int) : Nat → List Int
  | 0 => []
  | n + 1 => start :: keyRange (start + 1) n

/-- Modelled from the spec: the raw key value a native caller receives from a
failed Insert under the error-flag calling convention (spec sections 3 and 6):
the reserved value 0 means "no object" / "invalid argument", so a failing call
yields the reserved key while the error flag is set. -/
def insertRawKey {α : Type} (a : Arena α) (obj : Option α) : Int :=
  match (a.insert obj).1 with
  | Except.ok k => k
  | Except.error _ => 0

/-- Modelled from the spec: an arena instance as handed out by the foreign
runtime's constructor call; distinct `Create()` calls return distinguishable,
never aliased instances (spec section 4.1), modelled by tagging each instance
with a fresh identity drawn from the environment. -/
structure ArenaInstance (α : Type) where
  id : Nat
  arena : Arena α
  deriving Repr, DecidableEq

/-- Modelled from the spec: one `Create()` call against the foreign runtime
environment, which hands out a fresh object identity and advances. -/
def createInstance {α : Type} (env : Nat) : ArenaInstance α × Nat :=
  (⟨env, Arena.create⟩, env + 1)

/-- Well-formedness of an arena state: every live key is positive and below
the generator, every referenced slot id is below the slot generator, and the
generator has moved past the reserved key 0.  Holds for `Arena.create` and is
preserved by every operation. -/
def Arena.Wf {α : Type} (a : Arena α) : Prop :=
  (∀ p ∈ a.keys, 0 < p.1 ∧ p.1 < a.nextKey ∧ p.2 < a.nextSlot) ∧
  (∀ q ∈ a.slots, q.1 < a.nextSlot) ∧ 1 ≤ a.nextKey

/-- States reachable without `Duplicate`: keys and referenced slots are
pairwise distinct, every entry has reference count 1, and every live key's
slot exists. -/
def Arena.Plain {α : Type} (a : Arena α) : Prop :=
  (a.keys.map Prod.fst).Nodup ∧
  (a.keys.map Prod.snd).Nodup ∧
  (∀ q ∈ a.slots, q.2.refCount = 1) ∧
  (∀ p ∈ a.keys, ∃ e, alookup p.2 a.slots = some e)

/-! ### Association-list lemmas -/

theorem alookup_cons {κ β : Type} [DecidableEq κ] (k : κ) (p : κ × β) (l : List (κ × β)) :
    alookup k (p :: l) = if k = p.1 then some p.2 else alookup k l := rfl

theorem mem_of_alookup_eq_some {κ β : Type} [DecidableEq κ] {k : κ} {v : β}
    {l : List (κ × β)} (h : alookup k l = some v) : (k, v) ∈ l := by
  induction l with
  | nil => simp [alookup] at h
  | cons p rest ih =>
    by_cases hk : k = p.1
    · subst hk
      simp [alookup] at h
      subst h
      exact List.mem_cons_self _ _
    · rw [alookup, if_neg hk] at h
      exact List.mem_cons_of_mem _ (ih h)

/-! ### Well-formedness -/

theorem wf_create {α : Type} : (Arena.create (α := α)).Wf := by
  simp [Arena.Wf, Arena.create]

theorem wf_insert {α : Type} {a : Arena α} (hw : a.Wf) (obj : Option α) :
    (a.insert obj).2.Wf := by
  obtain ⟨h1, h2, h3⟩ := hw
  cases obj with
  | none => exact ⟨h1, h2, h3⟩
  | some v =>
    refine ⟨fun p hp => ?_, fun q hq => ?_, ?_⟩
    · have hp2 : p = (a.nextKey, a.nextSlot) ∨ p ∈ a.keys := by
        simpa only [Arena.insert, List.mem_cons] using hp
      show 0 < p.1 ∧ p.1 < a.nextKey + 1 ∧ p.2 < a.nextSlot + 1
      rcases hp2 with h | h
      · subst h
        refine ⟨by omega, by omega, by omega⟩
      · obtain ⟨u1, u2, u3⟩ := h1 p h
        exact ⟨u1, by omega, by omega⟩
    · have hq2 : q = (a.nextSlot, ⟨v, 1⟩) ∨ q ∈ a.slots := by
        simpa only [Arena.insert, List.mem_cons] using hq
      show q.1 < a.nextSlot + 1
      rcases hq2 with h | h
      · subst h
        simp
      · have := h2 q h
        omega
    · show (1 : Int) ≤ a.nextKey + 1
      omega

/-! ### The keys handed out by a run of Inserts -/

theorem keyRange_mem {start : Int} {n : Nat} {k : Int} (h : k ∈ keyRange start n) :
    start ≤ k ∧ k < start + n := by
  induction n generalizing start with
  | zero => simp [keyRange] at h
  | succ m ih =>
    rw [keyRange] at h
    rcases List.mem_cons.mp h with h1 | h1
    · subst h1
      constructor
      · exact le_refl _
      · have : (0 : Int) < (m : Int) + 1 := by positivity
        push_cast
        omega
    · have := ih h1
      push_cast at this ⊢
      omega

theorem keyRange_nodup (start : Int) (n : Nat) : (keyRange start n).Nodup := by
  induction n generalizing start with
  | zero => simp [keyRange]
  | succ m ih =>
    rw [keyRange]
    refine List.nodup_cons.mpr ⟨?_, ih _⟩
    intro hmem
    have := keyRange_mem hmem
    omega

theorem insertAll_cons_fst {α : Type} (a : Arena α) (v : α) (vs : List α) :
    (a.insertAll (v :: vs)).1 = ((a.insert (some v)).2.insertAll vs).1 := rfl

theorem insertAll_cons_snd {α : Type} (a : Arena α) (v : α) (vs : List α) :
    (a.insertAll (v :: vs)).2 = a.nextKey :: ((a.insert (some v)).2.insertAll vs).2 := rfl

theorem insertAll_keys {α : Type} (a : Arena α) (vs : List α) :
    (a.insertAll vs).2 = keyRange a.nextKey vs.length := by
  induction vs generalizing a with
  | nil => rfl
  | cons v vs ih =>
    rw [insertAll_cons_snd, List.length_cons, keyRange, ih]
    rfl

theorem insertAll_size {α : Type} (a : Arena α) (vs : List α) :
    (a.insertAll vs).1.size = a.size + vs.length := by
  induction vs generalizing a with
  | nil => simp [Arena.insertAll]
  | cons v vs ih =>
    rw [insertAll_cons_fst, ih]
    simp [Arena.insert, Arena.size]
    omega

/-! ### Lookup preservation under later Inserts -/

theorem alookup_keys_insert {α : Type} {a : Arena α} (hw : a.Wf) {k : Int} {s : Nat}
    (h : alookup k a.keys = some s) (v : α) :
    alookup k (a.insert (some v)).2.keys = some s := by
  have hk := (hw.1 _ (mem_of_alookup_eq_some h)).2.1
  show alookup k ((a.nextKey, a.nextSlot) :: a.keys) = some s
  rw [alookup_cons, if_neg (by omega : ¬ k = a.nextKey)]
  exact h

theorem alookup_slots_insert {α : Type} {a : Arena α} {s : Nat} {e : Entry α}
    (h : alookup s a.slots = some e) (hs : s < a.nextSlot) (v : α) :
    alookup s (a.insert (some v)).2.slots = some e := by
  show alookup s ((a.nextSlot, ⟨v, 1⟩) :: a.slots) = some e
  rw [alookup_cons, if_neg (by omega : ¬ s = a.nextSlot)]
  exact h

theorem alookup_keys_insertAll {α : Type} {a : Arena α} (hw : a.Wf) {k : Int} {s : Nat}
    (h : alookup k a.keys = some s) (vs : List α) :
    alookup k (a.insertAll vs).1.keys = some s := by
  induction vs generalizing a with
  | nil => exact h
  | cons v vs ih =>
    rw [insertAll_cons_fst]
    exact ih (wf_insert hw _) (alookup_keys_insert hw h v)

theorem get_insert_self {α : Type} (a : Arena α) (v : α) :
    ((a.insert (some v)).2.get a.nextKey).1 = Except.ok v := by
  show ((a.insert (some v)).2.get a.nextKey).1 = Except.ok v
  simp [Arena.insert, Arena.get, alookup]

theorem get_insert_preserve {α : Type} {a : Arena α} (hw : a.Wf) {k : Int} {v : α}
    (h : (a.get k).1 = Except.ok v) (w : α) :
    ((a.insert (some w)).2.get k).1 = Except.ok v := by
  cases hk : alookup k a.keys with
  | none => simp [Arena.get, hk] at h
  | some s =>
    cases hs : alookup s a.slots with
    | none => simp [Arena.get, hk, hs] at h
    | some e =>
      simp only [Arena.get, hk, hs] at h
      have hsb := (hw.1 _ (mem_of_alookup_eq_some hk)).2.2
      simp only [Arena.get, alookup_keys_insert hw hk w, alookup_slots_insert hs hsb w]
      exact h

theorem get_insertAll_preserve {α : Type} {a : Arena α} (hw : a.Wf) {k : Int} {v : α}
    (h : (a.get k).1 = Except.ok v) (vs : List α) :
    ((a.insertAll vs).1.get k).1 = Except.ok v := by
  induction vs generalizing a with
  | nil => exact h
  | cons w vs ih =>
    rw [insertAll_cons_fst]
    exact ih (wf_insert hw _) (get_insert_preserve hw h w)

theorem insertAll_zip_get {α : Type} {a : Arena α} (hw : a.Wf) (vs : List α) :
    ∀ p ∈ (a.insertAll vs).2.zip vs, ((a.insertAll vs).1.get p.1).1 = Except.ok p.2 := by
  induction vs generalizing a with
  | nil =>
    intro p hp
    simp [Arena.insertAll] at hp
  | cons v vs ih =>
    intro p hp
    rw [insertAll_cons_snd, List.zip_cons_cons] at hp
    rw [insertAll_cons_fst]
    rcases List.mem_cons.mp hp with h | h
    · subst h
      exact get_insertAll_preserve (wf_insert hw _) (get_insert_self a v) vs
    · exact ih (wf_insert hw _) p h

/-- Claim C1: over any sequence of successful Insert calls on one fresh arena
instance (in particular sequences of length 100000, and sequences inserting
structurally equal objects), the returned keys are pairwise distinct and none
of them equals the reserved key 0. -/
theorem insert_keys_nodup_ne_zero {α : Type} (vs : List α) :
    ((Arena.create (α := α)).insertAll vs).2.Nodup ∧
    ∀ k ∈ ((Arena.create (α := α)).insertAll vs).2, k ≠ 0 := by
  rw [insertAll_keys]
  refine ⟨keyRange_nodup _ _, ?_⟩
  intro k hk h0
  have hb := keyRange_mem hk
  rw [h0] at hb
  have : (Arena.create (α := α)).nextKey = 1 := rfl
  omega

/-- Claim C2: Insert followed by Get with the returned key yields the inserted
object, for every live entry created by an arbitrarily long run of Inserts on
a fresh arena (the spec checks 100000). -/
theorem insert_get_roundtrip {α : Type} (vs : List α) (k : Int) (v : α)
    (hkv : (k, v) ∈ ((Arena.create (α := α)).insertAll vs).2.zip vs) :
    (((Arena.create (α := α)).insertAll vs).1.get k).1 = Except.ok v :=
  insertAll_zip_get wf_create vs (k, v) hkv

theorem insert_get_roundtrip_witness :
    (((Arena.create (α := Nat)).insertAll [10, 20, 30]).1.get 2).1 = Except.ok 20 :=
  insert_get_roundtrip [10, 20, 30] 2 20 (by decide)

/-- Claim C3: Get on the reserved key 0 or on any key with no live entry
(never inserted, or fully removed) fails with `InvalidKey` and the exact
message `"key is not assigned: <k>"`, the key rendered in decimal; in
particular Get(0) fails with `"key is not assigned: 0"`. -/
theorem get_invalid_key_error {α : Type} (a : Arena α) (hw : a.Wf) (k : Int)
    (hdead : alookup k a.keys = none ∨ k = 0) :
    a.get k = (Except.error (ArenaError.invalidKey (invalidKeyMsg k)), a) ∧
    a.get 0 = (Except.error (ArenaError.invalidKey "key is not assigned: 0"), a) := by
  have h0 : alookup (0 : Int) a.keys = none := by
    cases hl : alookup (0 : Int) a.keys with
    | none => rfl
    | some s =>
      have := (hw.1 _ (mem_of_alookup_eq_some hl)).1
      omega
  have hmsg : invalidKeyMsg 0 = "key is not assigned: 0" := rfl
  refine ⟨?_, ?_⟩
  · rcases hdead with h | h
    · simp [Arena.get, h]
    · subst h
      simp [Arena.get, h0, hmsg]
  · simp [Arena.get, h0, hmsg]

theorem get_invalid_key_error_witness :
    (Arena.create (α := Nat)).get 5 =
      (Except.error (ArenaError.invalidKey (invalidKeyMsg 5)), Arena.create (α := Nat)) ∧
    (Arena.create (α := Nat)).get 0 =
      (Except.error (ArenaError.invalidKey "key is not assigned: 0"),
        Arena.create (α := Nat)) :=
  get_invalid_key_error (Arena.create (α := Nat)) wf_create 5 (Or.inl rfl)

/-- Claim C4: Insert on a null object fails with `InvalidArgument` and the
exact message `"obj==null"`, inserts nothing, and leaves size and the key
generator untouched, so a subsequent successful Insert hands out the same key
it would have handed out without the failed attempt. -/
theorem insert_null_invalid_argument {α : Type} (a : Arena α) (v : α) :
    a.insert none = (Except.error (ArenaError.invalidArgument "obj==null"), a) ∧
    (a.insert none).2.size = a.size ∧
    (a.insert none).2.nextKey = a.nextKey ∧
    (a.insert none).2.insert (some v) = a.insert (some v) :=
  ⟨rfl, rfl, rfl, rfl⟩

/-- The arena after the scenario's first step: one Insert on a fresh arena,
which hands out key 1. -/
def scenarioInserted {α : Type} (v : α) : Arena α :=
  ((Arena.create (α := α)).insert (some v)).2

/-- The arena after additionally calling Duplicate on key 1, which hands out
key 2. -/
def scenarioDuped {α : Type} (v : α) : Arena α :=
  ((scenarioInserted v).dup 1).2

/-- The arena after additionally calling Remove on key 1 (the original key). -/
def scenarioRemovedA {α : Type} (v : α) : Arena α :=
  (scenarioDuped v).remove 1

/-- The arena after additionally calling Remove on key 2 (the duplicate). -/
def scenarioRemovedB {α : Type} (v : α) : Arena α :=
  (scenarioRemovedA v).remove 2

/-- Claim C5: on a fresh arena, Insert hands out key A = 1, Duplicate(1) hands
out key B = 2 with A distinct from B; after Remove(A), Get(B) still returns the
original object; after Remove(B) as well, Get(A) and Get(B) both fail with
`InvalidKey`. -/
theorem dup_remove_scenario {α : Type} (v : α) :
    ((Arena.create (α := α)).insert (some v)).1 = Except.ok 1 ∧
    ((scenarioInserted v).dup 1).1 = Except.ok 2 ∧
    (1 : Int) ≠ 2 ∧
    ((scenarioRemovedA v).get 2).1 = Except.ok v ∧
    ((scenarioRemovedB v).get 1).1 =
      Except.error (ArenaError.invalidKey (invalidKeyMsg 1)) ∧
    ((scenarioRemovedB v).get 2).1 =
      Except.error (ArenaError.invalidKey (invalidKeyMsg 2)) :=
  ⟨rfl, rfl, by decide, rfl, rfl, rfl⟩

/-- Claim C7: Create() yields a new empty arena instance of size 0, and two
instances handed out by consecutive Create() calls are never equal or
aliased, even though both are empty. -/
theorem create_empty_distinct {α : Type} (env : Nat) :
    (createInstance (α := α) env).1.arena.size = 0 ∧
    (createInstance (α := α) ((createInstance (α := α) env).2)).1.arena.size = 0 ∧
    (createInstance (α := α) env).1 ≠
      (createInstance (α := α) ((createInstance (α := α) env).2)).1 := by
  refine ⟨rfl, rfl, fun h => ?_⟩
  have h2 : env = env + 1 := congrArg ArenaInstance.id h
  omega

/-- Claim C8: Get on a live key returns the stored value and leaves the whole
arena state unmodified (entries, reference counts, size and generator all
unchanged), and repeated Get calls are idempotent and side-effect-free. -/
theorem get_frame_idempotent {α : Type} (a : Arena α) (k : Int) (s : Nat) (e : Entry α)
    (hk : alookup k a.keys = some s) (hs : alookup s a.slots = some e) :
    a.get k = (Except.ok e.value, a) ∧
    (a.get k).2 = a ∧
    (a.get k).2.get k = a.get k := by
  have h : a.get k = (Except.ok e.value, a) := by simp [Arena.get, hk, hs]
  exact ⟨h, by rw [h], by rw [h]; exact h⟩

theorem get_frame_idempotent_witness :
    ((((Arena.create (α := Nat)).insert (some 7)).2).get 1 =
        (Except.ok 7, ((Arena.create (α := Nat)).insert (some 7)).2) ∧
      ((((Arena.create (α := Nat)).insert (some 7)).2).get 1).2 =
        ((Arena.create (α := Nat)).insert (some 7)).2 ∧
      (((((Arena.create (α := Nat)).insert (some 7)).2).get 1).2).get 1 =
        (((Arena.create (α := Nat)).insert (some 7)).2).get 1) :=
  get_frame_idempotent (((Arena.create (α := Nat)).insert (some 7)).2) 1 0 ⟨7, 1⟩ rfl rfl

/-- Claim C9: a failed Insert (null object) hands the caller the reserved key
value 0 alongside the raised `InvalidArgument` error, with the arena state
unchanged, so a caller ignoring the error flag can still detect the failure
from the returned key. -/
theorem put_null_returns_zero {α : Type} (a : Arena α) :
    insertRawKey a none = 0 ∧
    (a.insert none).1 = Except.error (ArenaError.invalidArgument "obj==null") ∧
    (a.insert none).2 = a :=
  ⟨rfl, rfl, rfl⟩

/-- Claim C10: the size reported through the JNI `jint` return type is always
confined to the 32-bit signed range, so an arena whose live count reached
2^31 would not report its size correctly even though 64-bit keys allow that
many insertions. -/
theorem size_jint_range_overflow {α : Type} (a : Arena α) :
    -(2 ^ 31) ≤ a.sizeJint ∧ a.sizeJint < 2 ^ 31 ∧
    (a.size = 2 ^ 31 → a.sizeJint ≠ (a.size : Int)) := by
  have hnn : (0 : Int) ≤ ((a.size : Int) + 2 ^ 31) % 2 ^ 32 :=
    Int.emod_nonneg _ (by norm_num)
  have hlt : ((a.size : Int) + 2 ^ 31) % 2 ^ 32 < 2 ^ 32 :=
    Int.emod_lt_of_pos _ (by norm_num)
  refine ⟨?_, ?_, ?_⟩
  · unfold Arena.sizeJint toInt32
    omega
  · unfold Arena.sizeJint toInt32
    omega
  · intro h
    unfold Arena.sizeJint toInt32
    rw [h]
    push_cast

theorem size_jint_range_overflow_witness :
    (Arena.mk (α := Nat) [] (List.replicate (2 ^ 31) ((0 : Int), (0 : Nat))) 1 0).sizeJint ≠
      ((Arena.mk (α := Nat) [] (List.replicate (2 ^ 31) ((0 : Int), (0 : Nat))) 1 0).size :
        Int) :=
  (size_jint_range_overflow _).2.2
    (show (List.replicate (2 ^ 31) ((0 : Int), (0 : Nat))).length = 2 ^ 31 from
      List.length_replicate _ _)

/-! ### Size accounting under Insert and Remove (claim C6) -/

theorem plain_create {α : Type} : (Arena.create (α := α)).Plain := by
  refine ⟨?_, ?_, ?_, ?_⟩ <;> simp [Arena.create, Arena.Plain]

theorem plain_insert {α : Type} {a : Arena α} (hw : a.Wf) (hp : a.Plain) (v : α) :
    (a.insert (some v)).2.Plain := by
  obtain ⟨h1, h2, h3, h4⟩ := hp
  refine ⟨?_, ?_, fun q hq => ?_, fun p hp2 => ?_⟩
  · show ((a.nextKey, a.nextSlot) :: a.keys).map Prod.fst |>.Nodup
    rw [List.map_cons, List.nodup_cons]
    refine ⟨fun hmem => ?_, h1⟩
    obtain ⟨p, hpmem, hpeq⟩ := List.mem_map.mp hmem
    have := (hw.1 p hpmem).2.1
    omega
  · show ((a.nextKey, a.nextSlot) :: a.keys).map Prod.snd |>.Nodup
    rw [List.map_cons, List.nodup_cons]
    refine ⟨fun hmem => ?_, h2⟩
    obtain ⟨p, hpmem, hpeq⟩ := List.mem_map.mp hmem
    have := (hw.1 p hpmem).2.2
    omega
  · have hq2 : q = (a.nextSlot, ⟨v, 1⟩) ∨ q ∈ a.slots := by
      simpa only [Arena.insert, List.mem_cons] using hq
    rcases hq2 with h | h
    · subst h; rfl
    · exact h3 q h
  · have hp3 : p = (a.nextKey, a.nextSlot) ∨ p ∈ a.keys := by
      simpa only [Arena.insert, List.mem_cons] using hp2
    show ∃ e, alookup p.2 ((a.nextSlot, ⟨v, 1⟩) :: a.slots) = some e
    rcases hp3 with h | h
    · subst h
      exact ⟨⟨v, 1⟩, by rw [alookup_cons, if_pos rfl]⟩
    · obtain ⟨e, he⟩ := h4 p h
      have := (hw.1 p h).2.2
      exact ⟨e, by rw [alookup_cons, if_neg (by omega : ¬ p.2 = a.nextSlot)]; exact he⟩

theorem wf_insertAll {α : Type} {a : Arena α} (hw : a.Wf) (vs : List α) :
    (a.insertAll vs).1.Wf := by
  induction vs generalizing a with
  | nil => exact hw
  | cons v vs ih =>
    rw [insertAll_cons_fst]
    exact ih (wf_insert hw _)

theorem plain_insertAll {α : Type} {a : Arena α} (hw : a.Wf) (hp : a.Plain) (vs : List α) :
    (a.insertAll vs).1.Plain := by
  induction vs generalizing a with
  | nil => exact hp
  | cons v vs ih =>
    rw [insertAll_cons_fst]
    exact ih (wf_insert hw _) (plain_insert hw hp v)

theorem insertAll_keys_live {α : Type} {a : Arena α} (hw : a.Wf) (vs : List α) :
    ∀ k ∈ (a.insertAll vs).2, ∃ s, alookup k (a.insertAll vs).1.keys = some s := by
  induction vs generalizing a with
  | nil => simp [Arena.insertAll]
  | cons v vs ih =>
    intro k hk
    rw [insertAll_cons_snd] at hk
    rw [insertAll_cons_fst]
    rcases List.mem_cons.mp hk with h | h
    · subst h
      have h0 : alookup a.nextKey (a.insert (some v)).2.keys = some a.nextSlot := by
        show alookup a.nextKey ((a.nextKey, a.nextSlot) :: a.keys) = some a.nextSlot
        rw [alookup_cons, if_pos rfl]
      exact ⟨a.nextSlot, alookup_keys_insertAll (wf_insert hw _) h0 vs⟩
    · exact ih (wf_insert hw _) k h

theorem filter_snd_ne_length {β : Type} [DecidableEq β] {l : List (Int × β)} {k : Int}
    {s : β} (hnd : (l.map Prod.snd).Nodup) (hmem : (k, s) ∈ l) :
    (l.filter (fun p => p.2 ≠ s)).length = l.length - 1 := by
  induction l with
  | nil => cases hmem
  | cons p rest ih =>
    rw [List.map_cons, List.nodup_cons] at hnd
    by_cases hps : p.2 = s
    · have hrest : rest.filter (fun q => q.2 ≠ s) = rest := by
        rw [List.filter_eq_self]
        intro q hq
        simp only [decide_eq_true_eq]
        intro hqs
        exact hnd.1 (by rw [hps, ← hqs]; exact List.mem_map_of_mem Prod.snd hq)
      rw [List.filter_cons, if_neg (by simp [hps]), hrest, List.length_cons]
      omega
    · have hmem2 : (k, s) ∈ rest := by
        rcases List.mem_cons.mp hmem with h | h
        · rw [← h] at hps; exact absurd rfl hps
        · exact h
      have hlen := ih hnd.2 hmem2
      have hpos : 0 < rest.length := List.length_pos_of_mem hmem2
      rw [List.filter_cons, if_pos (by simp [hps]), List.length_cons, hlen, List.length_cons]
      omega

theorem alookup_filter_snd {β : Type} [DecidableEq β] {l : List (Int × β)} {k : Int}
    {s t : β} (hnd : (l.map Prod.fst).Nodup) (hmem : (k, t) ∈ l) (hts : t ≠ s) :
    alookup k (l.filter (fun p => p.2 ≠ s)) = some t := by
  induction l with
  | nil => cases hmem
  | cons p rest ih =>
    rw [List.map_cons, List.nodup_cons] at hnd
    rcases List.mem_cons.mp hmem with h | h
    · rw [← h]
      rw [List.filter_cons, if_pos (by simpa using hts)]
      rw [alookup_cons, if_pos rfl]
    · have hk : ¬ k = p.1 := by
        intro he
        exact hnd.1 (he ▸ List.mem_map_of_mem Prod.fst h)
      rw [List.filter_cons]
      by_cases hps : p.2 = s
      · rw [if_neg (by simpa using hps)]
        exact ih hnd.2 h
      · rw [if_pos (by simpa using hps), alookup_cons, if_neg hk]
        exact ih hnd.2 h

theorem alookup_filter_fst {κ β : Type} [DecidableEq κ] {l : List (κ × β)} {t s : κ}
    (hts : ¬ t = s) : alookup t (l.filter (fun q => q.1 ≠ s)) = alookup t l := by
  induction l with
  | nil => rfl
  | cons q rest ih =>
    by_cases hq1 : q.1 = s
    · rw [List.filter_cons, if_neg (by simp [hq1]), ih, alookup_cons,
        if_neg (by rw [hq1]; exact hts)]
    · rw [List.filter_cons, if_pos (by simp [hq1]), alookup_cons, alookup_cons]
      by_cases ht : t = q.1
      · rw [if_pos ht, if_pos ht]
      · rw [if_neg ht, if_neg ht, ih]

theorem remove_live_step {α : Type} {a : Arena α} (hp : a.Plain) {k : Int} {s : Nat}
    (hk : alookup k a.keys = some s) :
    (a.remove k).size = a.size - 1 ∧ (a.remove k).Plain ∧
    (∀ k2 s2, ¬ k2 = k → alookup k2 a.keys = some s2 →
      alookup k2 (a.remove k).keys = some s2) := by
  obtain ⟨h1, h2, h3, h4⟩ := hp
  have hmem : (k, s) ∈ a.keys := mem_of_alookup_eq_some hk
  obtain ⟨e, he⟩ := h4 _ hmem
  have hrc : e.refCount = 1 := h3 _ (mem_of_alookup_eq_some he)
  have hrm : a.remove k =
      { a with
        slots := a.slots.filter (fun q => q.1 ≠ s)
        keys := a.keys.filter (fun p => p.2 ≠ s) } := by
    simp only [Arena.remove, hk, he]
    rw [if_pos (by omega)]
  refine ⟨?_, ?_, ?_⟩
  · rw [hrm]
    show (a.keys.filter (fun p => p.2 ≠ s)).length = a.keys.length - 1
    exact filter_snd_ne_length h2 hmem
  · rw [hrm]
    refine ⟨?_, ?_, fun q hq => ?_, fun p hp2 => ?_⟩
    · exact List.Nodup.sublist (List.Sublist.map Prod.fst (List.filter_sublist _)) h1
    · exact List.Nodup.sublist (List.Sublist.map Prod.snd (List.filter_sublist _)) h2
    · exact h3 q (List.mem_of_mem_filter hq)
    · have hm := List.mem_filter.mp hp2
      have hps : ¬ p.2 = s := by
        have := hm.2
        simpa using this
      obtain ⟨e2, he2⟩ := h4 p hm.1
      exact ⟨e2, by rw [alookup_filter_fst hps]; exact he2⟩
  · intro k2 s2 hne hk2
    have hm2 : (k2, s2) ∈ a.keys := mem_of_alookup_eq_some hk2
    have hs2 : s2 ≠ s := by
      intro hss
      have := List.inj_on_of_nodup_map h2 hm2 hmem (by simp [hss])
      exact hne (congrArg Prod.fst this)
    rw [hrm]
    exact alookup_filter_snd h1 hm2 hs2

theorem removeAll_size {α : Type} {ks : List Int} :
    ∀ {a : Arena α}, a.Plain → ks.Nodup →
      (∀ k ∈ ks, ∃ s, alookup k a.keys = some s) →
      (a.removeAll ks).size = a.size - ks.length := by
  induction ks with
  | nil =>
    intro a hp hnd hlive
    simp [Arena.removeAll]
  | cons k ks ih =>
    intro a hp hnd hlive
    obtain ⟨s, hs⟩ := hlive k (List.mem_cons_self _ _)
    obtain ⟨hsz, hp2, hpres⟩ := remove_live_step hp hs
    have hnd2 := (List.nodup_cons.mp hnd).2
    have hknotin := (List.nodup_cons.mp hnd).1
    have hlive2 : ∀ k2 ∈ ks, ∃ s2, alookup k2 (a.remove k).keys = some s2 := by
      intro k2 hk2
      obtain ⟨s2, hs2⟩ := hlive k2 (List.mem_cons_of_mem _ hk2)
      exact ⟨s2, hpres k2 s2 (fun he => hknotin (he ▸ hk2)) hs2⟩
    show ((a.remove k).removeAll ks).size = a.size - (k :: ks).length
    rw [ih hp2 hnd2 hlive2, hsz, List.length_cons]
    omega

/-- Claim C6: starting from a fresh arena, N successful Inserts give Size N,
and M subsequent Removes of distinct still-live keys give Size N - M. -/
theorem size_insert_remove {α : Type} (vs : List α) (ks : List Int) (hnd : ks.Nodup)
    (hks : ∀ k ∈ ks, k ∈ ((Arena.create (α := α)).insertAll vs).2) :
    ((Arena.create (α := α)).insertAll vs).1.size = vs.length ∧
    (((Arena.create (α := α)).insertAll vs).1.removeAll ks).size =
      vs.length - ks.length := by
  have hsz : ((Arena.create (α := α)).insertAll vs).1.size = vs.length := by
    rw [insertAll_size]
    simp [Arena.create, Arena.size]
  refine ⟨hsz, ?_⟩
  have hp := plain_insertAll (α := α) wf_create plain_create vs
  have hlive : ∀ k ∈ ks,
      ∃ s, alookup k ((Arena.create (α := α)).insertAll vs).1.keys = some s :=
    fun k hk => insertAll_keys_live wf_create vs k (hks k hk)
  rw [removeAll_size hp hnd hlive, hsz]

theorem size_insert_remove_witness :
    ((Arena.create (α := Nat)).insertAll [5, 6, 7]).1.size = 3 ∧
    (((Arena.create (α := Nat)).insertAll [5, 6, 7]).1.removeAll [1, 3]).size = 1 :=
  size_insert_remove [5, 6, 7] [1, 3] (by decide) (by decide)
